import Mathlib

/-!
Verification of the site deployment and serving pipeline of `simple-pages`
(`src/site.rs`) against its natural-language specification.

The Rust code is shallowly embedded: paths are modelled as lists of Unicode
segment strings (the code runs on Unix, where `std::path` components are the
nonempty `/`-separated pieces of the string), directory trees as an inductive
`FsTree`, filesystem side effects as explicit state passing, and fallible
operations as `Except`.
-/

namespace SimplePages

/-! ## String and path helpers

`segmentsOf` mirrors how `std::path::Path::components` decomposes a Unix path
string: split on `/` and drop empty pieces (duplicate or trailing separators).
The `.` and `..` pieces are kept here; the consumers below treat them exactly
as the Rust `Component::CurDir` / `Component::ParentDir` cases do.
-/

/-- Split a list of characters on `/`, keeping empty pieces. -/
def splitSlashAux : List Char → List Char → List String
  | [], acc => [String.mk acc.reverse]
  | c :: cs, acc =>
      if c = '/' then String.mk acc.reverse :: splitSlashAux cs []
      else splitSlashAux cs (c :: acc)

/-- The `/`-separated nonempty segments of a path string, in order
(mirrors iterating `Path::components()` on Unix, with `CurDir`/`ParentDir`
still present as the literal segments `"."` / `".."`). -/
def segmentsOf (s : String) : List String :=
  (splitSlashAux s.data []).filter (fun seg => seg ≠ "")

/-- `Path::has_root()` on Unix: the string starts with `/`. -/
def hasRoot (s : String) : Bool :=
  match s.data with
  | [] => false
  | c :: _ => c = '/'

/-- `str::starts_with('.')` for one segment. -/
def startsWithDot (s : String) : Bool :=
  match s.data with
  | [] => false
  | c :: _ => c = '.'

/-- `str::ends_with(suf)` (used for archive-format selection by suffix). -/
def endsWithStr (s suf : String) : Bool :=
  List.isSuffixOf suf.data s.data

/-! ## PathSanitizer: `sanitize_archive_path` (src/site.rs:322-359) -/

/-- The three rejection cases of `sanitize_archive_path`.  In the code all
three are `AppError::BadRequest` values with distinct messages:
`absolutePath` is "Absolute path in archive", `pathTraversal` is
"Path traversal in archive", `hiddenEntry` is "Hidden file in archive". -/
inductive SanitizeError where
  | absolutePath
  | pathTraversal
  | hiddenEntry
deriving DecidableEq, Repr

/-- The component loop of `sanitize_archive_path`: normal components that are
dot-prefixed are rejected as hidden, `..` is rejected as traversal, `.`
(the `CurDir` component) is skipped, and everything else is pushed in order. -/
def sanitizeComponents : List String → Except SanitizeError (List String)
  | [] => .ok []
  | c :: rest =>
      if c = ".." then .error .pathTraversal
      else if c = "." then sanitizeComponents rest
      else if startsWithDot c then .error .hiddenEntry
      else
        match sanitizeComponents rest with
        | .error e => .error e
        | .ok r => .ok (c :: r)

/-- `sanitize_archive_path` (src/site.rs:322-359): reject absolute paths,
then run the component loop; an empty result is replaced by `["."]`,
denoting the destination directory itself. -/
def sanitize_archive_path (raw : String) : Except SanitizeError (List String) :=
  if hasRoot raw then .error .absolutePath
  else
    match sanitizeComponents (segmentsOf raw) with
    | .error e => .error e
    | .ok r => if r = [] then .ok ["."] else .ok r

/-! Spec-side notions used to state the sanitizer claims. -/

/-- Resolve a relative segment list against an absolute root, the way a
filesystem would: `.` is a no-op, `..` pops one segment and escapes (yielding
`none`) when the current position is not strictly below the root, any other
segment descends.  This is the specification's notion of "joining a sanitized
path to a sandbox root without escaping it". -/
def resolveFrom (root acc : List String) : List String → Option (List String)
  | [] => some acc
  | s :: rest =>
      if s = "." then resolveFrom root acc rest
      else if s = ".." then
        if acc.length ≤ root.length then none
        else resolveFrom root acc.dropLast rest
      else resolveFrom root (acc ++ [s]) rest

/-- Resolve a relative segment list starting at the root itself. -/
def resolveUnder (root p : List String) : Option (List String) :=
  resolveFrom root root p

/-- The first offending segment of a raw path, scanning left to right:
`..` is a traversal offence, any other dot-prefixed segment except `.`
itself is a hidden-entry offence. -/
def firstOffense : List String → Option SanitizeError
  | [] => none
  | s :: rest =>
      if s = ".." then some .pathTraversal
      else if s = "." then firstOffense rest
      else if startsWithDot s then some .hiddenEntry
      else firstOffense rest

/-! ## Directory trees

On-disk directory trees are modelled inductively: a node is a file with a
byte size or a directory with an ordered list of named children (the order
models the order `read_dir` happens to yield entries in).
-/

/-- A directory tree: files carry their size in bytes. -/
inductive FsTree where
  | file : Nat → FsTree
  | dir : List (String × FsTree) → FsTree
deriving Repr

/-- One line of the listing produced by `list_files_recursive`:
a root-relative path string and a size in bytes. -/
structure FileEntry where
  path : String
  size : Nat
deriving DecidableEq, Repr

/-- Relative path join as produced by `strip_prefix` + display:
joining the empty prefix is the bare name, otherwise insert `/`. -/
def relJoin (pre n : String) : String :=
  if pre = "" then n else pre ++ "/" ++ n

mutual

/-- The inner `walk` of `list_files_recursive` (src/site.rs:391-420):
iterate the entries of the current directory in order, recursing into
subdirectories and appending `(relative path, size)` for files while
accumulating the running total.  `walkEntry` is the loop body for one
`read_dir` entry, `walkAcc` the loop over one directory's entries. -/
def walkEntry (pre n : String) (t : FsTree)
    (files : List FileEntry) (total : Nat) : List FileEntry × Nat :=
  match t with
  | FsTree.file s => (files ++ [⟨relJoin pre n, s⟩], total + s)
  | FsTree.dir sub => walkAcc (relJoin pre n) sub files total

/-- Loop of `walk` over the entries of one directory, in `read_dir` order:
recurse into subdirectory entries, record file entries. -/
def walkAcc (pre : String) (es : List (String × FsTree))
    (files : List FileEntry) (total : Nat) : List FileEntry × Nat :=
  match es with
  | [] => (files, total)
  | (n, t) :: rest =>
      let r := walkEntry pre n t files total
      walkAcc pre rest r.1 r.2

end

/-- Comparison used by the final `files.sort_by(|a, b| a.path.cmp(&b.path))`:
lexicographic order on the path strings. -/
def pathLe (a b : FileEntry) : Prop := a.path ≤ b.path

instance : DecidableRel pathLe := fun a b => inferInstanceAs (Decidable (a.path ≤ b.path))

instance : IsTotal FileEntry pathLe := ⟨fun a b => le_total a.path b.path⟩

instance : IsTrans FileEntry pathLe := ⟨fun _ _ _ h1 h2 => le_trans h1 h2⟩

/-- `list_files_recursive` (src/site.rs:383-425): a missing root (`none`)
yields an empty listing and size zero; a root that is not a directory is
skipped by `walk`'s `is_dir` guard, also yielding the empty result; otherwise
walk the tree and sort the listing by path. -/
def list_files_recursive : Option FsTree → List FileEntry × Nat
  | none => ([], 0)
  | some (FsTree.file _) => ([], 0)
  | some (FsTree.dir es) =>
      let r := walkAcc "" es [] 0
      (List.insertionSort pathLe r.1, r.2)

/-! Spec-side restatements of the walk, used to give the listing theorem
content independent of the accumulator threading of the source. -/

mutual

/-- All files reachable from one named entry, as root-relative entries. -/
def entryFiles (pre n : String) : FsTree → List FileEntry
  | FsTree.file s => [⟨relJoin pre n, s⟩]
  | FsTree.dir sub => filesUnder (relJoin pre n) sub

/-- All files of an entry list, in traversal order. -/
def filesUnder (pre : String) : List (String × FsTree) → List FileEntry
  | [] => []
  | (n, t) :: rest => entryFiles pre n t ++ filesUnder pre rest

end

mutual

/-- Aggregate byte size reachable from one entry (a directory contributes
only its contents). -/
def entrySize : FsTree → Nat
  | FsTree.file s => s
  | FsTree.dir sub => sizeUnder sub

/-- Aggregate byte size of an entry list. -/
def sizeUnder : List (String × FsTree) → Nat
  | [] => 0
  | (_, t) :: rest => entrySize t + sizeUnder rest

end

/-! ## RootFlattener: `flatten_single_root` (src/site.rs:362-381) -/

/-- Errors surfaced by the deployment pipeline.  Each constructor names the
`AppError` value the code produces: `payloadTooLargeUpload` is
`PayloadTooLarge("File exceeds maximum upload size …")`, `unsupportedFormat`
is `BadRequest("Unsupported format …")`, `corruptArchive` is the decoder's
`BadRequest`, `unsafePath` wraps a sanitizer rejection, `quotaExceeded` is
`PayloadTooLarge("Extracted files … exceed disk quota …")`, and `ioFailure`
is `Internal` produced from a `std::io::Error`. -/
inductive UploadError where
  | payloadTooLargeUpload
  | unsupportedFormat
  | corruptArchive
  | unsafePath : SanitizeError → UploadError
  | quotaExceeded
  | ioFailure
deriving DecidableEq, Repr

/-- The move-up loop of `flatten_single_root`: each child of the wrapper
(now renamed to `__flatten_temp__`) is renamed to the tree root.  A child
that is itself named `__flatten_temp__` makes that rename fail — its target
`dir/__flatten_temp__` is the still-occupied temporary directory, so POSIX
`rename` fails (`EISDIR` for a file over a directory, `ENOTEMPTY`/`EINVAL`
for a directory onto its own nonempty ancestor) — and the `?` propagates the
I/O error.  Every other child lands at the root, preserving order. -/
def moveEntriesUp (acc : List (String × FsTree)) :
    List (String × FsTree) → Except UploadError (List (String × FsTree))
  | [] => .ok acc
  | (n, t) :: rest =>
      if n = "__flatten_temp__" then .error .ioFailure
      else moveEntriesUp (acc ++ [(n, t)]) rest

/-- `flatten_single_root` (src/site.rs:362-381), acting on the entry list of
the staging root: when the root holds exactly one entry and it is a
directory, rename it to `__flatten_temp__` (a no-op when it already has that
name, and otherwise unobstructed since it is the only entry), move its
children up one level, and remove the emptied temporary; otherwise leave the
tree unchanged. -/
def flatten_single_root (entries : List (String × FsTree)) :
    Except UploadError (List (String × FsTree)) :=
  match entries with
  | [(_, FsTree.dir sub)] => moveEntriesUp [] sub
  | _ => .ok entries

/-! ## Deletion: `delete_site` (src/site.rs:139-149) -/

/-- `delete_site` acting on the user's site directory state (`none` when the
directory is absent): when the directory exists it is removed with
`remove_dir_all` and recreated empty with `create_dir_all`; when it does not
exist, nothing is done. -/
def delete_site (live : Option FsTree) : Option FsTree :=
  match live with
  | some _ => some (FsTree.dir [])
  | none => none

/-! ## Deployment: `upload_site` (src/site.rs:44-137)

The handler is modelled from the point where the multipart loop has yielded
the declared filename and the byte-buffer length.  Archive decoding
(extraction plus flattening into the temporary directory) is abstracted as a
function from the selected format to either an error or the entry list of
the staging tree.  The swap of the staging tree into the live location is
modelled as explicit state (live directory, backup directory) together with
a trace of the filesystem operations the code issues, so that claims about
rollback behaviour are claims about the trace.  The injected fault
`promoteFails` makes both the rename of the staging tree into the live
location and its recursive-copy fallback fail, the failure window the
specification singles out.
-/

/-- The two archive formats of the suffix dispatch. -/
inductive ArchiveFormat where
  | zip
  | tarGz
deriving DecidableEq, Repr

/-- Format selection (src/site.rs:89-97): `.zip` first, then `.tar.gz` or
`.tgz`, otherwise no decoder. -/
def selectFormat (filename : String) : Option ArchiveFormat :=
  if endsWithStr filename ".zip" then some ArchiveFormat.zip
  else if endsWithStr filename ".tar.gz" || endsWithStr filename ".tgz" then
    some ArchiveFormat.tarGz
  else none

/-- The three directories the swap touches: the live site directory
(`sites/{user}`), the backup (`sites/{user}.old`) and the staging temporary. -/
inductive Loc where
  | siteDir
  | oldDir
  | tempDir
deriving DecidableEq, Repr

/-- One filesystem operation issued by the swap, for the operation trace. -/
inductive FsOp where
  | removeAll : Loc → FsOp
  | rename : Loc → Loc → FsOp
  | copyRec : Loc → Loc → FsOp
deriving DecidableEq, Repr

/-- The externally visible directory state of one user's site:
the live tree and the backup tree, each possibly absent. -/
structure SiteState where
  live : Option FsTree
  backup : Option FsTree

/-- Configuration and fault injection for a deployment. -/
structure UploadCfg where
  maxUploadBytes : Nat
  diskQuotaBytes : Nat
  promoteFails : Bool

/-- The swap (src/site.rs:109-128): remove any leftover backup (result
ignored); if a live tree exists, rename it to the backup location; rename
the staging tree into the live location, falling back to a recursive copy;
on success remove the backup (result ignored).  When `fault` is set, the
promoting rename and its copy fallback both fail and the `?` operator
propagates the I/O error immediately — no further operation is issued. -/
def publishSwap (staged : List (String × FsTree)) (st : SiteState) (fault : Bool) :
    Except UploadError Unit × SiteState × List FsOp :=
  let st1 : SiteState := { st with backup := none }
  let ops1 : List FsOp := [FsOp.removeAll Loc.oldDir]
  let moved : SiteState × List FsOp :=
    match st1.live with
    | some t => (⟨none, some t⟩, ops1 ++ [FsOp.rename Loc.siteDir Loc.oldDir])
    | none => (st1, ops1)
  if fault then
    (Except.error UploadError.ioFailure, moved.1,
      moved.2 ++ [FsOp.rename Loc.tempDir Loc.siteDir, FsOp.copyRec Loc.tempDir Loc.siteDir])
  else
    (Except.ok (), ⟨some (FsTree.dir staged), none⟩,
      moved.2 ++ [FsOp.rename Loc.tempDir Loc.siteDir, FsOp.removeAll Loc.oldDir])

/-- `upload_site` (src/site.rs:44-137) from the declared filename and buffer
length on: check the length against the configured maximum, select the
decoder by suffix, decode into the staging tree, check the staged aggregate
size against the quota, then swap the staging tree into place.  The result
pairs the handler outcome with the final directory state and the trace of
swap operations. -/
def upload_site (cfg : UploadCfg) (st : SiteState) (filename : String) (dataLen : Nat)
    (decode : ArchiveFormat → Except UploadError (List (String × FsTree))) :
    Except UploadError Unit × SiteState × List FsOp :=
  if dataLen > cfg.maxUploadBytes then
    (Except.error UploadError.payloadTooLargeUpload, st, [])
  else
    match selectFormat filename with
    | none => (Except.error UploadError.unsupportedFormat, st, [])
    | some fmt =>
        match decode fmt with
        | Except.error e => (Except.error e, st, [])
        | Except.ok staged =>
            let total := (list_files_recursive (some (FsTree.dir staged))).2
            if total > cfg.diskQuotaBytes then
              (Except.error UploadError.quotaExceeded, st, [])
            else publishSwap staged st cfg.promoteFails

/-! ## Serving: `serve_file` (src/site.rs:167-201)

Absolute paths are modelled as segment lists from the filesystem root.  The
filesystem behaviour that `serve_file` consults — `canonicalize` of the
sites root, `canonicalize` of the joined request path, `is_dir` and
`exists` of canonical paths — is abstracted as the record `ServeFs`.
-/

/-- The filesystem facts `serve_file` depends on: `canonSites` is the result
of `sites_dir.canonicalize()` (`none` when it fails, in which case the code
falls back to the uncanonicalized sites path), `canon p` the result of
`p.canonicalize()`, `isDir` and `fileExists` queries on resolved paths. -/
structure ServeFs where
  canonSites : Option (List String)
  canon : List String → Option (List String)
  isDir : List String → Bool
  fileExists : List String → Bool

/-- The username validation of `serve_file` (src/site.rs:169-174):
every character is ASCII alphanumeric, `-`, or `_`. -/
def usernameOk (u : String) : Bool :=
  u.data.all (fun c => c.isAlphanum || c = '-' || c = '_')

/-- `PathBuf::join` with a string argument: an absolute argument replaces
the base entirely; otherwise its segments are appended (empty arguments and
repeated separators contribute no components). -/
def joinPath (base : List String) (p : String) : List String :=
  if hasRoot p then segmentsOf p else base ++ segmentsOf p

/-- The outcome of `serve_file`: an error response or the content of the
file at the given resolved path. -/
inductive ServeResult where
  | notFound
  | forbidden
  | content : List String → ServeResult
deriving DecidableEq, Repr

/-- `serve_file` (src/site.rs:167-201): validate the username character set
(failures are `NotFound`), join sites root, username and request path,
canonicalize (failure is `NotFound`), require the canonical file to start
with the canonical sites root joined with the username (failure is
`Forbidden`), then serve the file — for a directory, its `index.html` if it
exists, else `NotFound`. -/
def serve_file (fs : ServeFs) (sites : List String) (username path : String) : ServeResult :=
  if !(usernameOk username) then ServeResult.notFound
  else
    let file_path := joinPath (joinPath sites username) path
    let canonical_sites := fs.canonSites.getD sites
    match fs.canon file_path with
    | none => ServeResult.notFound
    | some canonical_file =>
        if !(List.isPrefixOf (joinPath canonical_sites username) canonical_file) then
          ServeResult.forbidden
        else if fs.isDir canonical_file then
          if fs.fileExists (canonical_file ++ ["index.html"]) then
            ServeResult.content (canonical_file ++ ["index.html"])
          else ServeResult.notFound
        else ServeResult.content canonical_file

/-! ## Lemmas about the sanitizer -/

/-- The component loop errors exactly at the first offending segment, and on
offence-free input keeps everything except the `.` segments, in order. -/
theorem sanitizeComponents_eq (l : List String) :
    sanitizeComponents l =
      match firstOffense l with
      | some e => Except.error e
      | none => Except.ok (l.filter (fun s => s ≠ ".")) := by
  induction l with
  | nil => rfl
  | cons c rest ih =>
      by_cases h1 : c = ".."
      · simp [sanitizeComponents, firstOffense, h1]
      · by_cases h2 : c = "."
        · simp [sanitizeComponents, firstOffense, h1, h2, ih]
        · by_cases h3 : startsWithDot c = true
          · simp [sanitizeComponents, firstOffense, h1, h2, h3]
          · simp only [Bool.not_eq_true] at h3
            simp only [sanitizeComponents, firstOffense, h1, h2, h3, ih,
              if_neg, if_false]
            cases hf : firstOffense rest with
            | some e => simp [h1, h2, h3, hf]
            | none => simp [h1, h2, h3, hf]

/-- Offence-free segment lists contain no `..` and no hidden segment. -/
theorem firstOffense_none (l : List String) (h : firstOffense l = none) :
    ∀ s ∈ l, s ≠ ".." ∧ (s = "." ∨ startsWithDot s = false) := by
  induction l with
  | nil => intro s hs; cases hs
  | cons c rest ih =>
      intro s hs
      by_cases h1 : c = ".."
      · simp [firstOffense, h1] at h
      · by_cases h2 : c = "."
        · rcases List.mem_cons.mp hs with hseq | hmem
          · subst hseq; exact ⟨by simp [h2], Or.inl h2⟩
          · exact ih (by simpa [firstOffense, h1, h2] using h) s hmem
        · by_cases h3 : startsWithDot c = true
          · simp [firstOffense, h1, h2, h3] at h
          · simp only [Bool.not_eq_true] at h3
            rcases List.mem_cons.mp hs with hseq | hmem
            · subst hseq; exact ⟨h1, Or.inr h3⟩
            · exact ih (by simpa [firstOffense, h1, h2, h3] using h) s hmem

/-- Resolving a traversal-free segment list from any starting directory
descends to the start plus the non-`.` segments: it never leaves the start,
let alone the root. -/
theorem resolveFrom_no_parent (p : List String) :
    ∀ root acc : List String, (∀ s ∈ p, s ≠ "..") →
      resolveFrom root acc p = some (acc ++ p.filter (fun s => s ≠ ".")) := by
  induction p with
  | nil => intro root acc _; simp [resolveFrom]
  | cons s rest ih =>
      intro root acc h
      have hs : s ≠ ".." := h s (by simp)
      have hrest : ∀ x ∈ rest, x ≠ ".." := fun x hx => h x (by simp [hx])
      by_cases h2 : s = "."
      · simp [resolveFrom, h2, hs, ih root acc hrest]
      · simp [resolveFrom, h2, hs, ih root (acc ++ [s]) hrest]

/-- C2 (amended): every path accepted by `sanitize_archive_path` contains no
parent-directory segment, and is either the lone current-directory marker
`["."]` (denoting the root itself) or contains no dot-prefixed segment at
all; resolving it against any sandbox root yields the root extended by the
kept segments — a descendant of that root, so no accepted path can escape. -/
theorem sanitized_path_no_escape (raw : String) (p : List String)
    (h : sanitize_archive_path raw = Except.ok p) :
    (∀ s ∈ p, s ≠ "..")
    ∧ (p = ["."] ∨ ∀ s ∈ p, startsWithDot s = false)
    ∧ ∀ root : List String, ∃ tail, resolveUnder root p = some (root ++ tail) := by
  unfold sanitize_archive_path at h
  by_cases hr : hasRoot raw = true
  · simp [hr] at h
  · simp only [Bool.not_eq_true] at hr
    rw [hr] at h
    simp only [Bool.false_eq_true, if_false] at h
    rw [sanitizeComponents_eq] at h
    cases hf : firstOffense (segmentsOf raw) with
    | some e => rw [hf] at h; cases h
    | none =>
        rw [hf] at h
        simp only at h
        have hprops := firstOffense_none (segmentsOf raw) hf
        by_cases hk : (segmentsOf raw).filter (fun s => s ≠ ".") = []
        · rw [if_pos hk] at h
          cases h
          refine ⟨?_, Or.inl rfl, ?_⟩
          · intro s hs
            simp at hs
            simp [hs]
          · intro root
            refine ⟨[], ?_⟩
            simp [resolveUnder, resolveFrom]
        · rw [if_neg hk] at h
          cases h
          have hmem : ∀ s ∈ (segmentsOf raw).filter (fun s => s ≠ "."),
              s ∈ segmentsOf raw ∧ s ≠ "." := by
            intro s hs
            rw [List.mem_filter] at hs
            exact ⟨hs.1, by simpa using hs.2⟩
          have hnp : ∀ s ∈ (segmentsOf raw).filter (fun s => s ≠ "."), s ≠ ".." := by
            intro s hs
            exact (hprops s (hmem s hs).1).1
          refine ⟨hnp, Or.inr ?_, ?_⟩
          · intro s hs
            rcases (hprops s (hmem s hs).1).2 with hdot | hok
            · exact absurd hdot (hmem s hs).2
            · exact hok
          · intro root
            refine ⟨(segmentsOf raw).filter (fun s => s ≠ "."), ?_⟩
            rw [resolveUnder, resolveFrom_no_parent _ root root hnp]
            congr 1
            rw [List.filter_eq_self.mpr]
            intro s hs
            simpa using (hmem s hs).2

/-- C2 counterexample: the raw path `.` is accepted, and the accepted result
is `["."]`, whose single segment is dot-prefixed — the claim's blanket "no
dot-prefixed segment" does not hold for the root marker. -/
theorem sanitized_path_no_escape_cex :
    sanitize_archive_path "." = Except.ok ["."] ∧ startsWithDot "." = true :=
  ⟨rfl, rfl⟩

/-- C2 witness: the accepted path `assets/app.js` satisfies all three parts. -/
theorem sanitized_path_no_escape_witness :
    (∀ s ∈ ["assets", "app.js"], s ≠ "..")
    ∧ ((["assets", "app.js"] : List String) = ["."]
        ∨ ∀ s ∈ ["assets", "app.js"], startsWithDot s = false)
    ∧ ∀ root : List String, ∃ tail,
        resolveUnder root ["assets", "app.js"] = some (root ++ tail) :=
  sanitized_path_no_escape "assets/app.js" ["assets", "app.js"] rfl

/-- C3 (amended): an absolute raw path is rejected as `AbsolutePath`; a
non-absolute raw path is classified by its first offending segment in
left-to-right order — `..` gives `PathTraversal`, any other dot-prefixed
segment gives `HiddenEntry` — rather than by an error-class precedence;
current-directory segments are dropped, and a path whose segments are all
filtered out sanitizes to `["."]`. -/
theorem sanitize_error_taxonomy (raw : String) :
    (hasRoot raw = true → sanitize_archive_path raw = Except.error SanitizeError.absolutePath)
    ∧ (hasRoot raw = false →
        sanitize_archive_path raw =
          match firstOffense (segmentsOf raw) with
          | some e => Except.error e
          | none =>
              if (segmentsOf raw).filter (fun s => s ≠ ".") = [] then Except.ok ["."]
              else Except.ok ((segmentsOf raw).filter (fun s => s ≠ "."))) := by
  constructor
  · intro hr
    simp [sanitize_archive_path, hr]
  · intro hr
    unfold sanitize_archive_path
    rw [hr]
    simp only [Bool.false_eq_true, if_false]
    rw [sanitizeComponents_eq]
    cases hf : firstOffense (segmentsOf raw) with
    | some e => simp
    | none =>
        by_cases hk : (segmentsOf raw).filter (fun s => s ≠ ".") = []
        · simp [hk]
        · simp [hk]

/-- C3 counterexample: `.a/../b` is not absolute and contains a
parent-directory segment, yet it is rejected as `HiddenEntry` (the first
offending segment `.a` wins), not as the `PathTraversal` the claim
prescribes for every parent-directory-containing path. -/
theorem sanitize_error_taxonomy_cex :
    hasRoot ".a/../b" = false
    ∧ ".." ∈ segmentsOf ".a/../b"
    ∧ sanitize_archive_path ".a/../b" = Except.error SanitizeError.hiddenEntry
    ∧ SanitizeError.hiddenEntry ≠ SanitizeError.pathTraversal :=
  ⟨rfl, by decide, rfl, by decide⟩

/-- C3 witness: the taxonomy at three concrete inputs — an absolute path, a
path whose first offence is a traversal, and an all-filtered path. -/
theorem sanitize_error_taxonomy_witness :
    sanitize_archive_path "/etc/passwd" = Except.error SanitizeError.absolutePath
    ∧ sanitize_archive_path "a/../b" = Except.error SanitizeError.pathTraversal
    ∧ sanitize_archive_path "./" = Except.ok ["."] :=
  ⟨(sanitize_error_taxonomy "/etc/passwd").1 rfl,
   (sanitize_error_taxonomy "a/../b").2 rfl,
   (sanitize_error_taxonomy "./").2 rfl⟩

/-! ## Lemmas about the flattener and deletion -/

/-- The move-up loop succeeds with the accumulated prefix followed by the
wrapper's children exactly when no child bears the temporary name, and
otherwise fails with the propagated I/O error. -/
theorem moveEntriesUp_eq (sub : List (String × FsTree)) :
    ∀ acc, moveEntriesUp acc sub =
      if sub.any (fun p => p.1 == "__flatten_temp__") then Except.error UploadError.ioFailure
      else Except.ok (acc ++ sub) := by
  induction sub with
  | nil => intro acc; simp [moveEntriesUp]
  | cons p rest ih =>
      intro acc
      obtain ⟨n, t⟩ := p
      by_cases hn : n = "__flatten_temp__"
      · simp [moveEntriesUp, hn]
      · have hb : (n == "__flatten_temp__") = false := by simp [hn]
        simp [moveEntriesUp, hn, ih]
        rw [hb, Bool.false_or]

/-- C7 (amended): the flattener moves contents up one level if and only if
the top level contains exactly one entry and that entry is a directory, and
then only provided none of the wrapper's children is named
`__flatten_temp__` — the implementation's temporary directory name; a child
with that name makes the move fail with an I/O error instead of flattening.
In every other case the tree is left unchanged. -/
theorem flatten_single_root_spec (entries : List (String × FsTree)) :
    (∀ n sub, entries = [(n, FsTree.dir sub)] →
        ((sub.any (fun p => p.1 == "__flatten_temp__")) = false →
            flatten_single_root entries = Except.ok sub)
        ∧ ((sub.any (fun p => p.1 == "__flatten_temp__")) = true →
            flatten_single_root entries = Except.error UploadError.ioFailure))
    ∧ ((∀ n sub, entries ≠ [(n, FsTree.dir sub)]) →
        flatten_single_root entries = Except.ok entries) := by
  constructor
  · intro n sub hent
    subst hent
    constructor
    · intro hclean
      simp [flatten_single_root, moveEntriesUp_eq, hclean]
    · intro hdirty
      simp [flatten_single_root, moveEntriesUp_eq, hdirty]
  · intro hshape
    match entries with
    | [] => rfl
    | [(n, FsTree.file s)] => rfl
    | [(n, FsTree.dir sub)] => exact absurd rfl (hshape n sub)
    | e1 :: e2 :: rest =>
        obtain ⟨n1, t1⟩ := e1
        cases t1 <;> rfl

/-- C7 counterexample: a staging tree whose single top-level entry is the
directory `site` containing a file named `__flatten_temp__`.  The claim says
the wrapper's contents end up at the tree root, i.e. the flattener returns
the wrapper's children; the code instead fails with an I/O error, because
moving that child up targets the occupied temporary directory itself. -/
theorem flatten_single_root_cex :
    flatten_single_root [("site", FsTree.dir [("__flatten_temp__", FsTree.file 7)])]
      = Except.error UploadError.ioFailure
    ∧ flatten_single_root [("site", FsTree.dir [("__flatten_temp__", FsTree.file 7)])]
      ≠ Except.ok [("__flatten_temp__", FsTree.file 7)] := by
  refine ⟨rfl, ?_⟩
  intro h
  rw [show flatten_single_root [("site", FsTree.dir [("__flatten_temp__", FsTree.file 7)])]
      = Except.error UploadError.ioFailure from rfl] at h
  cases h

/-- C7 witness: a clean wrapper is flattened; a two-entry top level is left
unchanged. -/
theorem flatten_single_root_witness :
    flatten_single_root [("site", FsTree.dir [("index.html", FsTree.file 5)])]
      = Except.ok [("index.html", FsTree.file 5)]
    ∧ flatten_single_root [("a", FsTree.file 1), ("b", FsTree.file 2)]
      = Except.ok [("a", FsTree.file 1), ("b", FsTree.file 2)] :=
  ⟨((flatten_single_root_spec _).1 "site" _ rfl).1 rfl,
   (flatten_single_root_spec _).2 (fun n sub h => by simp at h)⟩

/-- C8 (amended): deletion replaces the user's site directory with an empty
directory when the directory exists; when the directory is absent, the
`exists()` guard makes deletion a no-op and the directory stays absent. -/
theorem delete_site_spec :
    (∀ t, delete_site (some t) = some (FsTree.dir []))
    ∧ delete_site none = none :=
  ⟨fun _ => rfl, rfl⟩

/-- C8 counterexample: deleting when the site directory is absent (as for a
user whose directory was never created, e.g. the built-in admin account, or
was lost in a failed publish) leaves it absent — not the empty, valid
sandbox directory the claim promises in every case. -/
theorem delete_site_cex :
    delete_site none = none
    ∧ delete_site none ≠ some (FsTree.dir []) :=
  ⟨rfl, by simp [delete_site]⟩

/-! ## Lemmas about the tree inspector -/

mutual

/-- The loop body accumulates exactly the files reachable from the entry and
their aggregate size. -/
theorem walkEntry_eq (pre n : String) (t : FsTree)
    (files : List FileEntry) (total : Nat) :
    walkEntry pre n t files total = (files ++ entryFiles pre n t, total + entrySize t) := by
  match t with
  | FsTree.file s => simp [walkEntry, entryFiles, entrySize]
  | FsTree.dir sub =>
      simp [walkEntry, entryFiles, entrySize,
        walkAcc_eq (relJoin pre n) sub files total]

/-- The loop accumulates exactly the files of the entry list and their
aggregate size. -/
theorem walkAcc_eq (pre : String) (es : List (String × FsTree))
    (files : List FileEntry) (total : Nat) :
    walkAcc pre es files total = (files ++ filesUnder pre es, total + sizeUnder es) := by
  match es with
  | [] => simp [walkAcc, filesUnder, sizeUnder]
  | (n, t) :: rest =>
      simp [walkAcc, filesUnder, sizeUnder, walkEntry_eq pre n t files total,
        walkAcc_eq pre rest (files ++ entryFiles pre n t) (total + entrySize t),
        List.append_assoc, Nat.add_assoc]

end

/-- C9: the tree inspector returns, for a directory root, a listing that is
sorted by path and is a permutation of the root-relative files of the tree
(directories contribute no entries), together with the sum of all file sizes
(directories contribute no size); for a missing root it returns the empty
listing and size zero instead of an error. -/
theorem list_files_recursive_spec :
    list_files_recursive none = ([], 0)
    ∧ ∀ es : List (String × FsTree),
        (list_files_recursive (some (FsTree.dir es))).2 = sizeUnder es
        ∧ List.Sorted pathLe (list_files_recursive (some (FsTree.dir es))).1
        ∧ (list_files_recursive (some (FsTree.dir es))).1.Perm (filesUnder "" es) := by
  refine ⟨rfl, fun es => ?_⟩
  have h := walkAcc_eq "" es [] 0
  refine ⟨?_, ?_, ?_⟩
  · simp [list_files_recursive, h]
  · exact List.sorted_insertionSort pathLe _
  · have hperm := List.perm_insertionSort pathLe (walkAcc "" es [] 0).1
    simp only [list_files_recursive]
    rw [h] at hperm ⊢
    simpa using hperm

/-! ## Theorems about the deployment pipeline -/

/-- C6: a staged tree whose aggregate size strictly exceeds the quota makes
the deployment fail with the quota error, with the directory state unchanged
and no swap operation issued — the previously live tree is untouched; a
staged tree whose size equals the quota is not rejected by the quota check. -/
theorem upload_quota_frame (cfg : UploadCfg) (st : SiteState) (filename : String)
    (dataLen : Nat) (decode : ArchiveFormat → Except UploadError (List (String × FsTree)))
    (fmt : ArchiveFormat) (staged : List (String × FsTree))
    (hlen : ¬ dataLen > cfg.maxUploadBytes)
    (hfmt : selectFormat filename = some fmt)
    (hdec : decode fmt = Except.ok staged) :
    ((list_files_recursive (some (FsTree.dir staged))).2 > cfg.diskQuotaBytes →
        upload_site cfg st filename dataLen decode
          = (Except.error UploadError.quotaExceeded, st, []))
    ∧ ((list_files_recursive (some (FsTree.dir staged))).2 = cfg.diskQuotaBytes →
        (upload_site cfg st filename dataLen decode).1
          ≠ Except.error UploadError.quotaExceeded) := by
  constructor
  · intro hover
    simp [upload_site, hlen, hfmt, hdec, hover]
  · intro heq
    have hnot : ¬ (list_files_recursive (some (FsTree.dir staged))).2 > cfg.diskQuotaBytes := by
      omega
    simp only [upload_site, hlen, hfmt, hdec, if_neg, if_false]
    rw [if_neg hnot]
    unfold publishSwap
    cases hst : st.live with
    | some t => cases cfg.promoteFails <;> simp [hst]
    | none => cases cfg.promoteFails <;> simp [hst]

/-- C6 witness: with a quota of 3 bytes, a 4-byte staged tree is rejected
with the state unchanged and no operation issued, and a 3-byte staged tree
passes the quota check. -/
theorem upload_quota_frame_witness :
    upload_site ⟨100, 3, false⟩ ⟨some (FsTree.dir []), none⟩ "site.zip" 10
        (fun _ => Except.ok [("big.bin", FsTree.file 4)])
      = (Except.error UploadError.quotaExceeded, ⟨some (FsTree.dir []), none⟩, [])
    ∧ (upload_site ⟨100, 3, false⟩ ⟨some (FsTree.dir []), none⟩ "site.zip" 10
        (fun _ => Except.ok [("fits.bin", FsTree.file 3)])).1
      ≠ Except.error UploadError.quotaExceeded :=
  ⟨(upload_quota_frame ⟨100, 3, false⟩ ⟨some (FsTree.dir []), none⟩ "site.zip" 10
      (fun _ => Except.ok [("big.bin", FsTree.file 4)]) ArchiveFormat.zip
      [("big.bin", FsTree.file 4)] (by decide) rfl rfl).1 (by decide),
   (upload_quota_frame ⟨100, 3, false⟩ ⟨some (FsTree.dir []), none⟩ "site.zip" 10
      (fun _ => Except.ok [("fits.bin", FsTree.file 3)]) ArchiveFormat.zip
      [("fits.bin", FsTree.file 3)] (by decide) rfl rfl).2 (by decide)⟩

/-- C1 (amended): when the promoting rename and its copy fallback fail after
an existing live tree has been moved to the backup location, the deployment
reports the I/O failure immediately: the operation trace contains no
operation restoring the backup to the live location, the live location is
left absent, and the previous tree survives only at the backup location. -/
theorem upload_promote_failure_no_restore (cfg : UploadCfg) (st : SiteState)
    (filename : String) (dataLen : Nat)
    (decode : ArchiveFormat → Except UploadError (List (String × FsTree)))
    (fmt : ArchiveFormat) (staged : List (String × FsTree)) (t : FsTree)
    (hfault : cfg.promoteFails = true)
    (hlive : st.live = some t)
    (hlen : ¬ dataLen > cfg.maxUploadBytes)
    (hfmt : selectFormat filename = some fmt)
    (hdec : decode fmt = Except.ok staged)
    (hquota : ¬ (list_files_recursive (some (FsTree.dir staged))).2 > cfg.diskQuotaBytes) :
    upload_site cfg st filename dataLen decode
      = (Except.error UploadError.ioFailure, ⟨none, some t⟩,
          [FsOp.removeAll Loc.oldDir, FsOp.rename Loc.siteDir Loc.oldDir,
           FsOp.rename Loc.tempDir Loc.siteDir, FsOp.copyRec Loc.tempDir Loc.siteDir])
    ∧ FsOp.rename Loc.oldDir Loc.siteDir
        ∉ (upload_site cfg st filename dataLen decode).2.2 := by
  have hmain : upload_site cfg st filename dataLen decode
      = (Except.error UploadError.ioFailure, ⟨none, some t⟩,
          [FsOp.removeAll Loc.oldDir, FsOp.rename Loc.siteDir Loc.oldDir,
           FsOp.rename Loc.tempDir Loc.siteDir, FsOp.copyRec Loc.tempDir Loc.siteDir]) := by
    simp only [upload_site, hlen, hfmt, hdec, if_neg, if_false]
    rw [if_neg hquota]
    simp [publishSwap, hfault, hlive]
  refine ⟨hmain, ?_⟩
  rw [hmain]
  simp

/-- C1 witness: the amended behaviour at a concrete faulted deployment over
a live site containing `index.html`. -/
theorem upload_promote_failure_no_restore_witness :
    upload_site ⟨100, 50, true⟩ ⟨some (FsTree.dir [("index.html", FsTree.file 2)]), none⟩
        "site.tgz" 10 (fun _ => Except.ok [("new.html", FsTree.file 1)])
      = (Except.error UploadError.ioFailure,
          ⟨none, some (FsTree.dir [("index.html", FsTree.file 2)])⟩,
          [FsOp.removeAll Loc.oldDir, FsOp.rename Loc.siteDir Loc.oldDir,
           FsOp.rename Loc.tempDir Loc.siteDir, FsOp.copyRec Loc.tempDir Loc.siteDir])
    ∧ FsOp.rename Loc.oldDir Loc.siteDir
        ∉ (upload_site ⟨100, 50, true⟩
            ⟨some (FsTree.dir [("index.html", FsTree.file 2)]), none⟩
            "site.tgz" 10 (fun _ => Except.ok [("new.html", FsTree.file 1)])).2.2 :=
  upload_promote_failure_no_restore ⟨100, 50, true⟩
    ⟨some (FsTree.dir [("index.html", FsTree.file 2)]), none⟩ "site.tgz" 10
    (fun _ => Except.ok [("new.html", FsTree.file 1)]) ArchiveFormat.tarGz
    [("new.html", FsTree.file 1)] (FsTree.dir [("index.html", FsTree.file 2)])
    rfl rfl (by decide) rfl rfl (by decide)

/-- C1 counterexample: at the same faulted deployment, the operation trace
issued after the old tree was moved to backup contains no rename of the
backup back to the live location, and the final live location is absent —
the implementation does not attempt the restoration the claim describes. -/
theorem upload_promote_failure_cex :
    upload_site ⟨100, 50, true⟩ ⟨some (FsTree.dir [("old.html", FsTree.file 9)]), none⟩
        "site.zip" 10 (fun _ => Except.ok [("new.html", FsTree.file 1)])
      = (Except.error UploadError.ioFailure,
          ⟨none, some (FsTree.dir [("old.html", FsTree.file 9)])⟩,
          [FsOp.removeAll Loc.oldDir, FsOp.rename Loc.siteDir Loc.oldDir,
           FsOp.rename Loc.tempDir Loc.siteDir, FsOp.copyRec Loc.tempDir Loc.siteDir])
    ∧ FsOp.rename Loc.oldDir Loc.siteDir
        ∉ ([FsOp.removeAll Loc.oldDir, FsOp.rename Loc.siteDir Loc.oldDir,
            FsOp.rename Loc.tempDir Loc.siteDir, FsOp.copyRec Loc.tempDir Loc.siteDir] :
            List FsOp)
    ∧ (⟨none, some (FsTree.dir [("old.html", FsTree.file 9)])⟩ : SiteState).live = none := by
  refine ⟨?_, by decide, rfl⟩
  have h := upload_promote_failure_no_restore ⟨100, 50, true⟩
    ⟨some (FsTree.dir [("old.html", FsTree.file 9)]), none⟩ "site.zip" 10
    (fun _ => Except.ok [("new.html", FsTree.file 1)]) ArchiveFormat.zip
    [("new.html", FsTree.file 1)] (FsTree.dir [("old.html", FsTree.file 9)])
    rfl rfl (by decide) rfl rfl (by decide)
  exact h.1

/-- C10: archive-format selection depends only on the declared filename's
suffix — `.zip` selects the ZIP decoder, otherwise `.tar.gz` or `.tgz`
selects the gzip-tar decoder — and a filename with any other suffix makes
the deployment fail with the unsupported-format error for every possible
decoder, with no operation issued: the byte buffer is never decoded. -/
theorem format_selection_spec (filename : String) :
    (endsWithStr filename ".zip" = true → selectFormat filename = some ArchiveFormat.zip)
    ∧ (endsWithStr filename ".zip" = false →
        (endsWithStr filename ".tar.gz" = true ∨ endsWithStr filename ".tgz" = true) →
        selectFormat filename = some ArchiveFormat.tarGz)
    ∧ (endsWithStr filename ".zip" = false → endsWithStr filename ".tar.gz" = false →
        endsWithStr filename ".tgz" = false → selectFormat filename = none)
    ∧ ∀ (cfg : UploadCfg) (st : SiteState) (dataLen : Nat)
        (decode : ArchiveFormat → Except UploadError (List (String × FsTree))),
        ¬ dataLen > cfg.maxUploadBytes → selectFormat filename = none →
        upload_site cfg st filename dataLen decode
          = (Except.error UploadError.unsupportedFormat, st, []) := by
  refine ⟨?_, ?_, ?_, ?_⟩
  · intro h; simp [selectFormat, h]
  · intro h1 h2
    rcases h2 with h2 | h2 <;> simp [selectFormat, h1, h2]
  · intro h1 h2 h3; simp [selectFormat, h1, h2, h3]
  · intro cfg st dataLen decode hlen hsel
    simp [upload_site, hlen, hsel]

/-- C10 witness: concrete selections for each clause, and the rejection of a
`.rar` upload with a decoder that would otherwise succeed. -/
theorem format_selection_witness :
    selectFormat "a.zip" = some ArchiveFormat.zip
    ∧ selectFormat "a.tar.gz" = some ArchiveFormat.tarGz
    ∧ selectFormat "a.rar" = none
    ∧ upload_site ⟨100, 100, false⟩ ⟨none, none⟩ "a.rar" 10 (fun _ => Except.ok [])
      = (Except.error UploadError.unsupportedFormat, ⟨none, none⟩, []) :=
  ⟨(format_selection_spec "a.zip").1 rfl,
   (format_selection_spec "a.tar.gz").2.1 rfl (Or.inl rfl),
   (format_selection_spec "a.rar").2.2.1 rfl rfl rfl,
   (format_selection_spec "a.rar").2.2.2 ⟨100, 100, false⟩ ⟨none, none⟩ 10
     (fun _ => Except.ok []) (by decide) rfl⟩

/-! ## Theorems about serving -/

/-- A list is a `isPrefixOf`-prefix of itself followed by anything. -/
theorem isPrefixOf_append_self (l t : List String) :
    List.isPrefixOf l (l ++ t) = true := by
  induction l with
  | nil => simp [List.isPrefixOf]
  | cons a as ih => simp [List.isPrefixOf, ih]

/-- Joining the empty string onto a path adds no component (Rust's
`PathBuf::join("")` only appends a trailing separator). -/
theorem joinPath_empty (base : List String) : joinPath base "" = base := by
  have h1 : hasRoot "" = false := rfl
  have h2 : segmentsOf "" = [] := rfl
  simp [joinPath, h1, h2]

/-- C4: a serving request by a charset-valid username whose joined path
canonicalizes to a location that is not a descendant of the canonical sites
root joined with that username — the canonical form of the user's sandbox —
is answered with `Forbidden`: not `NotFound`, and no file content. -/
theorem serve_escape_forbidden (fs : ServeFs) (sites : List String)
    (u path : String) (cs c : List String)
    (hu : usernameOk u = true)
    (hcs : fs.canonSites = some cs)
    (hc : fs.canon (joinPath (joinPath sites u) path) = some c)
    (hout : List.isPrefixOf (joinPath cs u) c = false) :
    serve_file fs sites u path = ServeResult.forbidden := by
  simp [serve_file, hu, hcs, hc, hout]

/-- C4 witness: `alice` requesting `../bob/secret.txt`, which canonicalizes
to bob's tree, is answered with `Forbidden`. -/
theorem serve_escape_forbidden_witness :
    serve_file
      ⟨some ["srv", "sites"],
       fun p =>
         if p = ["srv", "sites", "alice", "..", "bob", "secret.txt"] then
           some ["srv", "sites", "bob", "secret.txt"]
         else none,
       fun _ => false, fun _ => false⟩
      ["srv", "sites"] "alice" "../bob/secret.txt" = ServeResult.forbidden :=
  serve_escape_forbidden _ ["srv", "sites"] "alice" "../bob/secret.txt"
    ["srv", "sites"] ["srv", "sites", "bob", "secret.txt"] rfl rfl rfl rfl

/-- C5: the empty username passes the character-set validation vacuously,
and the containment check then compares against the canonical sites root
joined with the empty string — the sites root itself — so any path that
canonicalizes to an existing non-directory file anywhere under the sites
root is served as content. -/
theorem serve_empty_username (fs : ServeFs) (sites : List String) (path : String)
    (cs tail : List String)
    (hcs : fs.canonSites = some cs)
    (hc : fs.canon (joinPath sites path) = some (cs ++ tail))
    (hdir : fs.isDir (cs ++ tail) = false) :
    usernameOk "" = true
    ∧ serve_file fs sites "" path = ServeResult.content (cs ++ tail) := by
  refine ⟨rfl, ?_⟩
  have hjoin : joinPath (joinPath sites "") path = joinPath sites path := by
    rw [joinPath_empty]
  have hpre : List.isPrefixOf (joinPath cs "") (cs ++ tail) = true := by
    rw [joinPath_empty]
    exact isPrefixOf_append_self cs tail
  simp [serve_file, usernameOk, hjoin, hcs, hc, hpre, hdir]

/-- C5 witness: with the empty username, a request path pointing into bob's
published tree is served. -/
theorem serve_empty_username_witness :
    usernameOk "" = true
    ∧ serve_file
        ⟨some ["srv", "sites"],
         fun p =>
           if p = ["srv", "sites", "bob", "page.html"] then
             some ["srv", "sites", "bob", "page.html"]
           else none,
         fun _ => false, fun _ => false⟩
        ["srv", "sites"] "" "bob/page.html"
      = ServeResult.content (["srv", "sites"] ++ ["bob", "page.html"]) :=
  serve_empty_username _ ["srv", "sites"] "bob/page.html"
    ["srv", "sites"] ["bob", "page.html"] rfl rfl rfl

end SimplePages
